import Mathlib

/-!
Verification of the SeisComP inventory editor's core logic
(`seiscomp-inventory-editor-gui.py`).

The development shallowly embeds the save/patch engine (`save_xml`), the
channel ordering (`sort_channels`), the field accessor
(`_get_element_text`) and the stream edit command (`update_stream`) as
executable Lean functions over `List Char` byte buffers and a small
in-memory element model setup.  File contents are `List Char`; Python's
`str.find`, `str.rfind`, slicing, `str.replace`, `str.split`,
`str.strip` and `re.match r'^(\s+)'` are reproduced with the same
semantics (including `-1` results, which are kept as `Option`/explicit
fallbacks exactly where the Python code consumes them).
-/

/-- Convert a string literal to the `List Char` byte-buffer representation. -/
def chars (s : String) : List Char := s.data

/-- Characters treated as whitespace by Python's `str.strip` / `\s`
(the subset that can occur in this program's data). -/
def isPySpace (c : Char) : Bool :=
  c = ' ' ∨ c = '\t' ∨ c = '\n' ∨ c = '\r' ∨ c = Char.ofNat 11 ∨ c = Char.ofNat 12

/-- Worker for `findFrom`: first index `≥ start` (counting from `i`) where
`pat` is a prefix of the remaining list. -/
def findIdx2 (pat : List Char) (start : Nat) : List Char → Nat → Option Nat
  | [], i => if start ≤ i ∧ pat.isPrefixOf [] = true then some i else none
  | c :: rest, i =>
    if start ≤ i ∧ pat.isPrefixOf (c :: rest) = true then some i
    else findIdx2 pat start rest (i + 1)

/-- Python `hay.find(pat, start)`: `some` of the first match offset, `none`
standing for Python's `-1`. -/
def findFrom (hay pat : List Char) (start : Nat) : Option Nat :=
  findIdx2 pat start hay 0

/-- Worker for `rfindLe`: last index whose match ends at or before `stop`. -/
def rfindIdx (pat : List Char) (stop : Nat) : List Char → Nat → Option Nat → Option Nat
  | [], i, acc =>
    if i + pat.length ≤ stop ∧ pat.isPrefixOf [] = true then some i else acc
  | c :: rest, i, acc =>
    rfindIdx pat stop rest (i + 1)
      (if i + pat.length ≤ stop ∧ pat.isPrefixOf (c :: rest) = true then some i else acc)

/-- Python `hay.rfind(pat, 0, stop)`: `some` of the last offset whose match
lies inside `hay[0:stop]`, `none` standing for Python's `-1`. -/
def rfindLe (hay pat : List Char) (stop : Nat) : Option Nat :=
  rfindIdx pat stop hay 0 none

/-- Python slice `l[a:b]` for nonnegative bounds. -/
def sliceL (a b : Nat) (l : List Char) : List Char :=
  (l.drop a).take (b - a)

/-- Python `s.split('\n')` specialised to one separator character:
splits at every occurrence, keeping empty pieces. -/
def splitOnChar (sep : Char) : List Char → List (List Char)
  | [] => [[]]
  | c :: rest =>
    match splitOnChar sep rest with
    | [] => [[]]
    | h :: t => if c = sep then [] :: h :: t else (c :: h) :: t

/-- Python `s.strip()` (leading and trailing whitespace removed). -/
def pyStrip (s : List Char) : List Char :=
  ((s.dropWhile isPySpace).reverse.dropWhile isPySpace).reverse

/-- Fuel-indexed worker for `replaceAll`; fuel `≥ length` of the buffer
makes it total and structurally recursive. -/
def replaceAllFuel (old new : List Char) : Nat → List Char → List Char
  | 0, s => s
  | _ + 1, [] => []
  | fuel + 1, a :: rest =>
    if old ≠ [] ∧ old.isPrefixOf (a :: rest) = true then
      new ++ replaceAllFuel old new fuel (List.drop (old.length - 1) rest)
    else a :: replaceAllFuel old new fuel rest

/-- Python `s.replace(old, new)` for a non-empty `old`: every
non-overlapping occurrence, scanned left to right, is replaced. -/
def replaceAll (old new s : List Char) : List Char :=
  replaceAllFuel old new s.length s

/-- The anchor text `publicID="<key>"` that `save_xml` searches for. -/
def anchorOf (elementId : List Char) : List Char :=
  chars "publicID=" ++ chars "\"" ++ elementId ++ chars "\""

/-- `save_xml`: `block_start = content.rfind('<', 0, element_start)`.
Python yields `-1` when absent; the later slices `content[-1:...]` and
`content[:-1]` then address position `len - 1`, which this encoding keeps. -/
def blockStartAt (content : List Char) (elementStart : Nat) : Nat :=
  match rfindLe content (chars "<") elementStart with
  | some i => i
  | none => content.length - 1

/-- `save_xml`: `block_end = content.find('</stream>', element_start)`, with
the fallback `content.find('>', element_start) + 1`; a doubly failed search
gives Python `-1 + 1 = 0`. -/
def blockEndAt (content : List Char) (elementStart : Nat) : Nat :=
  match findFrom content (chars "</stream>") elementStart with
  | some i => i
  | none =>
    match findFrom content (chars ">") elementStart with
    | some j => j + 1
    | none => 0

/-- `save_xml`: indentation inferred from the element block's second
physical line via `re.match(r'^(\s+)', lines[1])`, defaulting to 12 spaces. -/
def indentOf (elementContent : List Char) : List Char :=
  match splitOnChar '\n' elementContent with
  | _ :: second :: _ =>
    let ind := second.takeWhile isPySpace
    if ind = [] then chars "            " else ind
  | _ => chars "            "

/-- `save_xml`'s reverse line scan for the last recognizable closing
element: a `</shared>` line, a `/>` line, or a line that is a closing tag
`</tag>` whose text occurs in the block. -/
def lastElemScan (mc : List Char) : List (List Char) → Option Nat
  | [] => none
  | line :: rest =>
    let st := pyStrip line
    if (chars "</shared>").isSuffixOf st = true then
      rfindLe mc (chars "</shared>") mc.length
    else if (chars "/>").isSuffixOf st = true then
      rfindLe mc (chars "/>") mc.length
    else if (chars ">").isSuffixOf st = true then
      let closeTag := sliceL 2 (st.length - 1) st
      if closeTag ≠ [] ∧
          (rfindLe mc (chars "</" ++ closeTag ++ chars ">") mc.length).isSome = true then
        rfindLe mc (chars "</" ++ closeTag ++ chars ">") mc.length
      else lastElemScan mc rest
    else lastElemScan mc rest

/-- `last_elem_end` in `save_xml`: the reverse scan over the block's lines. -/
def findLastElemEnd (mc : List Char) : Option Nat :=
  lastElemScan mc (splitOnChar '\n' mc).reverse

/-- One iteration of `save_xml`'s `for field, new_value in changes.items()`
loop over the extracted element block `mc`. -/
def applyFieldChange (childIndent : List Char) (mc : List Char)
    (field newValue : List Char) : List Char :=
  let fieldTag := chars "<" ++ field ++ chars ">"
  let closeTag := chars "</" ++ field ++ chars ">"
  match findFrom mc fieldTag 0 with
  | some fieldStart =>
    match findFrom mc closeTag fieldStart with
    | some fieldEnd =>
      let fieldContent := sliceL fieldStart (fieldEnd + closeTag.length) mc
      let newFieldContent := fieldTag ++ newValue ++ closeTag
      replaceAll fieldContent newFieldContent mc
    | none => mc
  | none =>
    match findLastElemEnd mc with
    | some lastElemEnd =>
      let newFieldContent := chars "\n" ++ childIndent ++ fieldTag ++ newValue ++ closeTag
      let endTagPos :=
        match findFrom mc (chars ">") lastElemEnd with
        | some i => i + 1
        | none => 0
      mc.take endTagPos ++ newFieldContent ++ mc.drop endTagPos
    | none => mc

/-- `save_xml`'s per-record patch: locate the anchor, cut out the element
block, apply every tracked field change to it, and splice it back. -/
def patchElement (content : List Char) (elementId : List Char)
    (changes : List (List Char × List Char)) : List Char :=
  match findFrom content (anchorOf elementId) 0 with
  | none => content
  | some elementStart =>
    let blockStart := blockStartAt content elementStart
    let blockEnd := blockEndAt content elementStart
    let elementContent := sliceL blockStart blockEnd content
    let childIndent := indentOf elementContent
    let modified :=
      changes.foldl (fun mc fc => applyFieldChange childIndent mc fc.1 fc.2) elementContent
    content.take blockStart ++ modified ++ content.drop blockEnd

/-- The whole `for element_id, changes in self.modified_elements.items()`
pass of `save_xml` over the original file bytes; the association list keeps
the dict's insertion order. -/
def apply_tracked_changes (content : List Char)
    (tracker : List (List Char × List (List Char × List Char))) : List Char :=
  tracker.foldl (fun c e => patchElement c e.1 e.2) content

/-- The editor state touched by `save_xml`: the file at the current path,
the file at the backup path, the change tracker `modified_elements`, and
the `unsaved_changes` flag. -/
structure EditorState where
  mainFile : Option (List Char)
  backupFile : Option (List Char)
  tracker : List (List Char × List (List Char × List Char))
  unsaved : Bool
deriving DecidableEq

/-- `save_xml`'s backup/patch/write/recover protocol.  `writeFails` injects
a failure of the `f.write(content)` step; the exception handler then
renames the backup over the (possibly truncated) main file.  Returns the
new state and whether the save succeeded. -/
def save_xml (st : EditorState) (writeFails : Bool) : EditorState × Bool :=
  let afterRename : EditorState :=
    match st.mainFile with
    | some c => { st with mainFile := none, backupFile := some c }
    | none => st
  match afterRename.backupFile with
  | none => (afterRename, false)
  | some original =>
    let patched := apply_tracked_changes original afterRename.tracker
    if writeFails then
      ({ afterRename with mainFile := some original, backupFile := none }, false)
    else
      ({ afterRename with mainFile := some patched, tracker := [], unsaved := false }, true)

/-- A stream element as `sort_channels` sees it: its `code` attribute plus
an opaque payload standing for the rest of the XML element (it keeps
distinct elements distinguishable). -/
structure Channel where
  code : List Char
  payload : Nat
deriving DecidableEq, Repr

/-- Python string `<` (lexicographic by code point; a proper prefix is
smaller). -/
def ltStr : List Char → List Char → Bool
  | [], [] => false
  | [], _ :: _ => true
  | _ :: _, [] => false
  | a :: as, b :: bs => if a < b then true else if b < a then false else ltStr as bs

/-- Python `<` on the 3-tuples `(band_code, instrument_code, orientation_value)`
returned by `get_sort_key` (string, string, int). -/
def ltKey (a b : List Char × List Char × Nat) : Bool :=
  if ltStr a.1 b.1 then true
  else if ltStr b.1 a.1 then false
  else if ltStr a.2.1 b.2.1 then true
  else if ltStr b.2.1 a.2.1 then false
  else decide (a.2.2 < b.2.2)

/-- `sort_channels.get_sort_key`'s orientation table
`{'E':0,'1':0,'N':1,'2':1,'Z':2}.get(orientation, 3)`. -/
def orientation_order (c : Char) : Nat :=
  if c = 'E' ∨ c = '1' then 0
  else if c = 'N' ∨ c = '2' then 1
  else if c = 'Z' then 2
  else 3

/-- `get_sort_key` from `sort_channels`: invalid (shorter than 3) codes get
`('', '', 999)`; otherwise `(code[0], code[1], orientation_value)`. -/
def get_sort_key (channel : Channel) : List Char × List Char × Nat :=
  if channel.code.length < 3 then ([], [], 999)
  else
    (channel.code.take 1, (channel.code.drop 1).take 1,
      orientation_order (channel.code.getD 2 ' '))

/-- The total preorder `sorted` uses: `a` may precede `b` when
`key(b) < key(a)` fails. -/
def chanLE (a b : Channel) : Prop :=
  ltKey (get_sort_key b) (get_sort_key a) = false

instance : DecidableRel chanLE := fun _ _ =>
  inferInstanceAs (Decidable (_ = false))

/-- `sort_channels`: Python's `sorted(channels, key=get_sort_key)` is the
stable sort by `get_sort_key`; `List.insertionSort` with the matching
total preorder is the same stable sort. -/
def sort_channels (channels : List Channel) : List Channel :=
  List.insertionSort chanLE channels

/-- Modelled from the spec: the spec's channel-ordering key, split into
explicit characters — `bandCode = char 0`, `instrumentCode = char 1`,
orientation priority `E/1 → 0`, `N/2 → 1`, `Z → 2`, else `3`. -/
def specOrientationPriority (c : Char) : Nat :=
  if c = 'E' then 0
  else if c = '1' then 0
  else if c = 'N' then 1
  else if c = '2' then 1
  else if c = 'Z' then 2
  else 3

/-- Modelled from the spec: ascending comparison by
`(bandCode, instrumentCode, orientationPriority)` for 3-character codes. -/
def specStreamLe (a b : Channel) : Prop :=
  a.code.getD 0 ' ' < b.code.getD 0 ' ' ∨
    (a.code.getD 0 ' ' = b.code.getD 0 ' ' ∧
      (a.code.getD 1 ' ' < b.code.getD 1 ' ' ∨
        (a.code.getD 1 ' ' = b.code.getD 1 ' ' ∧
          specOrientationPriority (a.code.getD 2 ' ') ≤
            specOrientationPriority (b.code.getD 2 ' '))))

/-- A child element of a stream as `update_stream` manipulates it: its tag
and its (possibly null) text. -/
structure XmlChild where
  tag : List Char
  text : Option (List Char)
deriving DecidableEq, Repr

/-- The in-memory stream element: attributes and ordered child elements. -/
structure StreamElem where
  attrs : List (List Char × List Char)
  children : List XmlChild
deriving DecidableEq, Repr

/-- `element.get(name, dflt)` on attributes. -/
def getAttr (el : StreamElem) (name dflt : List Char) : List Char :=
  match el.attrs.find? (fun p => p.1 = name) with
  | some p => p.2
  | none => dflt

/-- `element.find('sc3:<tag>', ns)`: the first child with the given tag. -/
def findChild : List XmlChild → List Char → Option XmlChild
  | [], _ => none
  | c :: rest, tag => if c.tag = tag then some c else findChild rest tag

/-- `_get_element_text(element, tag, default='')`: Python returns
`elem.text if elem is not None else default`, so the result is the found
child's text — which is Python `None` (here `none`) for an empty element —
or the default string when the child is absent. -/
def _get_element_text (element : StreamElem) (tag : List Char)
    (dflt : List Char) : Option (List Char) :=
  match findChild element.children tag with
  | some e => e.text
  | none => some dflt

/-- `elem.text = value` on the first child carrying the tag. -/
def setChildText : List XmlChild → List Char → List Char → List XmlChild
  | [], _, _ => []
  | c :: rest, tag, v =>
    if c.tag = tag then { c with text := some v } :: rest
    else c :: setChildText rest tag v

/-- `element.remove(elem)` for the child `find` located (the first one
with the tag). -/
def removeChild : List XmlChild → List Char → List XmlChild
  | [], _ => []
  | c :: rest, tag => if c.tag = tag then rest else c :: removeChild rest tag

/-- Python `dict` lookup on an association list with unique keys. -/
def dictGet {β : Type} : List (List Char × β) → List Char → Option β
  | [], _ => none
  | (k', v) :: rest, k => if k' = k then some v else dictGet rest k

/-- Python `dict` assignment `m[k] = v`: replace in place or append. -/
def dictSet {β : Type} : List (List Char × β) → List Char → β → List (List Char × β)
  | [], k, v => [(k, v)]
  | (k', v') :: rest, k, v =>
    if k' = k then (k, v) :: rest else (k', v') :: dictSet rest k v

/-- Python `new_value != current` where `current` may be `None`
(a string never equals `None`). -/
def pyNe (newValue : List Char) (current : Option (List Char)) : Bool :=
  match current with
  | none => true
  | some c => decide (newValue ≠ c)

/-- The `for field, new_value in fields_to_update.items()` loop of
`update_stream`.  `el0` is the element as it was when `current_values`
was computed (the start of the call); `el` is the live element being
mutated; `changes` and `made` accumulate `changes` / `changes_made`. -/
def update_fields (el0 : StreamElem) :
    List (List Char × List Char) → StreamElem → List (List Char × List Char) → Bool →
      StreamElem × List (List Char × List Char) × Bool
  | [], el, changes, made => (el, changes, made)
  | (field, newValue) :: rest, el, changes, made =>
    if pyNe newValue (_get_element_text el0 field []) = true then
      match findChild el.children field with
      | none =>
        if newValue ≠ [] then
          update_fields el0 rest
            { el with children := el.children ++ [⟨field, some newValue⟩] }
            (dictSet changes field newValue) true
        else update_fields el0 rest el changes made
      | some _ =>
        if newValue ≠ [] then
          update_fields el0 rest { el with children := setChildText el.children field newValue }
            (dictSet changes field newValue) true
        else
          update_fields el0 rest { el with children := removeChild el.children field }
            (dictSet changes field []) true
    else update_fields el0 rest el changes made

/-- Result of one `update_stream` call. -/
structure UpdateResult where
  elem : StreamElem
  tracker : List (List Char × List (List Char × List Char))
  unsaved : Bool
  made : Bool
deriving DecidableEq

/-- `update_stream`: diff the GUI field texts (`gui`, the
`fields_to_update` items in order) against the current element, mutate the
element, and — when something changed — set `unsaved_changes` and store
the per-call `changes` dict under the element's `publicID` (replacing any
previous entry), provided that id is non-empty. -/
def update_stream (el : StreamElem) (gui : List (List Char × List Char))
    (tracker : List (List Char × List (List Char × List Char)))
    (unsaved : Bool) : UpdateResult :=
  let elementId := getAttr el (chars "publicID") []
  match update_fields el gui el [] false with
  | (el', changes, made) =>
    if made then
      { elem := el'
        tracker := if elementId ≠ [] then dictSet tracker elementId changes else tracker
        unsaved := true
        made := true }
    else
      { elem := el', tracker := tracker, unsaved := unsaved, made := false }

/-- A minimal inventory file with one stream of code `BHZ`, publicID
`smp2024ABZ`, and no `gainUnit` element (the spec's end-to-end scenario). -/
def demoFile : List Char := chars
  "<?xml version=\"1.0\" encoding=\"UTF-8\"?>\n<seiscomp xmlns=\"http://geofon.gfz-potsdam.de/ns/seiscomp3-schema/0.12\" version=\"0.12\">\n  <Inventory>\n    <network code=\"XX\">\n      <station code=\"ABC\">\n        <sensorLocation code=\"00\">\n          <stream publicID=\"smp2024ABZ\" code=\"BHZ\">\n            <depth>0</depth>\n            <shared>true</shared>\n          </stream>\n        </sensorLocation>\n      </station>\n    </network>\n  </Inventory>\n</seiscomp>\n"

/-- The in-memory element for `demoFile`'s stream, as the Entity Model
holds it after load. -/
def demoStreamElem : StreamElem :=
  { attrs := [(chars "publicID", chars "smp2024ABZ"), (chars "code", chars "BHZ")]
    children := [⟨chars "depth", some (chars "0")⟩, ⟨chars "shared", some (chars "true")⟩] }

/-- The six `fields_to_update` GUI texts: everything shows its current
value except `gainUnit`, staged to `M/S`. -/
def demoGui : List (List Char × List Char) :=
  [(chars "depth", chars "0"), (chars "azimuth", []), (chars "dip", []),
   (chars "gain", []), (chars "gainFrequency", []), (chars "gainUnit", chars "M/S")]

/-- `demoFile` after the save: the single new `gainUnit` line, 12-space
indented, right after `</shared>`; every other byte unchanged. -/
def demoExpected : List Char := chars
  "<?xml version=\"1.0\" encoding=\"UTF-8\"?>\n<seiscomp xmlns=\"http://geofon.gfz-potsdam.de/ns/seiscomp3-schema/0.12\" version=\"0.12\">\n  <Inventory>\n    <network code=\"XX\">\n      <station code=\"ABC\">\n        <sensorLocation code=\"00\">\n          <stream publicID=\"smp2024ABZ\" code=\"BHZ\">\n            <depth>0</depth>\n            <shared>true</shared>\n            <gainUnit>M/S</gainUnit>\n          </stream>\n        </sensorLocation>\n      </station>\n    </network>\n  </Inventory>\n</seiscomp>\n"

/-- A file with two streams, used to show what a save does when one
tracked record's anchor is missing. -/
def missFile : List Char := chars
  "<seiscomp>\n  <Inventory>\n    <stream publicID=\"smpAAA\" code=\"BHZ\">\n      <depth>5</depth>\n      <shared>true</shared>\n    </stream>\n    <stream publicID=\"smpBBB\" code=\"BHN\">\n      <depth>5</depth>\n      <shared>true</shared>\n    </stream>\n  </Inventory>\n</seiscomp>\n"

/-- A tracker whose first record (`smpZZZ`) has no anchor in `missFile`
and whose second (`smpBBB`) does. -/
def missTracker : List (List Char × List (List Char × List Char)) :=
  [(chars "smpZZZ", [(chars "depth", chars "9")]),
   (chars "smpBBB", [(chars "depth", chars "7")])]

/-- What the save writes for `missFile`/`missTracker`: the missing record
is skipped, `smpBBB`'s depth is patched to 7. -/
def missExpected : List Char := chars
  "<seiscomp>\n  <Inventory>\n    <stream publicID=\"smpAAA\" code=\"BHZ\">\n      <depth>5</depth>\n      <shared>true</shared>\n    </stream>\n    <stream publicID=\"smpBBB\" code=\"BHN\">\n      <depth>7</depth>\n      <shared>true</shared>\n    </stream>\n  </Inventory>\n</seiscomp>\n"

/-- A file with one stream carrying a non-empty `<dip>` element. -/
def emptyValFile : List Char := chars
  "<seiscomp>\n  <Inventory>\n    <stream publicID=\"smpCCC\" code=\"BHE\">\n      <dip>-90</dip>\n      <shared>true</shared>\n    </stream>\n  </Inventory>\n</seiscomp>\n"

/-- `emptyValFile` after saving a tracked empty value for `dip`: the span
is replaced by the empty-content tag `<dip></dip>`, not removed. -/
def emptyValExpected : List Char := chars
  "<seiscomp>\n  <Inventory>\n    <stream publicID=\"smpCCC\" code=\"BHE\">\n      <dip></dip>\n      <shared>true</shared>\n    </stream>\n  </Inventory>\n</seiscomp>\n"

/-- Channels `["BHZ","BHE","BHN"]` (payloads record original positions). -/
def exChans1 : List Channel :=
  [⟨chars "BHZ", 0⟩, ⟨chars "BHE", 1⟩, ⟨chars "BHN", 2⟩]

/-- Channels `["HH2","HH1","HHZ"]`. -/
def exChans2 : List Channel :=
  [⟨chars "HH2", 0⟩, ⟨chars "HH1", 1⟩, ⟨chars "HHZ", 2⟩]

/-- Channels `["BHZ","BH"]`: one valid code and one 2-character code. -/
def exChansShort : List Channel :=
  [⟨chars "BHZ", 0⟩, ⟨chars "BH", 1⟩]

/-- Order-preserving encoding of the (at most one-character) strings that
occur as `get_sort_key` components: `'' ↦ 0`, a character `c ↦ c.toNat+1`. -/
def encC : List Char → Nat
  | [] => 0
  | c :: _ => c.toNat + 1

/-- `get_sort_key` tuples encoded as `Nat` triples. -/
def encKey (k : List Char × List Char × Nat) : Nat × Nat × Nat :=
  (encC k.1, encC k.2.1, k.2.2)

/-- Strict lexicographic order on `Nat` triples. -/
def ltNat3 (u v : Nat × Nat × Nat) : Prop :=
  u.1 < v.1 ∨ (u.1 = v.1 ∧ (u.2.1 < v.2.1 ∨ (u.2.1 = v.2.1 ∧ u.2.2 < v.2.2)))

instance decLtNat3 (u v : Nat × Nat × Nat) : Decidable (ltNat3 u v) := by
  unfold ltNat3
  infer_instance

/-- A stream element with publicID `X` and one `depth` child. -/
def elW : StreamElem :=
  { attrs := [(chars "publicID", chars "X")]
    children := [⟨chars "depth", some (chars "5")⟩] }

/-- GUI texts for `elW`: `depth` unchanged, `azimuth` newly set to `9`. -/
def guiW : List (List Char × List Char) :=
  [(chars "depth", chars "5"), (chars "azimuth", chars "9")]

/-- A tracker holding an entry for `X` from an earlier update that changed
`depth`. -/
def trW : List (List Char × List (List Char × List Char)) :=
  [(chars "X", [(chars "depth", chars "5")])]

/-- A stream element with no `publicID` attribute at all. -/
def elNoId : StreamElem :=
  { attrs := [(chars "code", chars "BHZ")]
    children := [⟨chars "depth", some (chars "3")⟩] }

/-- GUI texts for `elNoId`: `depth` changed to `7`. -/
def guiNoId : List (List Char × List Char) :=
  [(chars "depth", chars "7")]

theorem findIdx2_some {pat : List Char} {start : Nat} :
    ∀ {l : List Char} {i j : Nat}, findIdx2 pat start l i = some j →
      start ≤ j ∧ i ≤ j ∧ pat.isPrefixOf (l.drop (j - i)) = true := by
  intro l
  induction l with
  | nil =>
    intro i j h
    simp only [findIdx2] at h
    split at h
    · rename_i hc
      cases h
      exact ⟨hc.1, Nat.le_refl _, by simpa using hc.2⟩
    · cases h
  | cons c rest ih =>
    intro i j h
    simp only [findIdx2] at h
    split at h
    · rename_i hc
      cases h
      exact ⟨hc.1, Nat.le_refl _, by simpa using hc.2⟩
    · obtain ⟨h1, h2, h3⟩ := ih h
      refine ⟨h1, by omega, ?_⟩
      have : j - i = (j - (i + 1)) + 1 := by omega
      rw [this, List.drop_succ_cons]
      exact h3

theorem findFrom_some {hay pat : List Char} {start j : Nat}
    (h : findFrom hay pat start = some j) :
    start ≤ j ∧ pat.isPrefixOf (hay.drop j) = true := by
  obtain ⟨h1, _, h3⟩ := findIdx2_some h
  exact ⟨h1, by simpa using h3⟩

theorem replaceAllFuel_contains {old new : List Char} (hold : old ≠ []) :
    ∀ (fuel : Nat) (s : List Char) (i : Nat), s.length ≤ fuel →
      old.isPrefixOf (s.drop i) = true →
      ∃ x y, replaceAllFuel old new fuel s = x ++ new ++ y := by
  intro fuel
  induction fuel with
  | zero =>
    intro s i hs hp
    have hnil : s = [] := List.length_eq_zero.mp (Nat.le_zero.mp hs)
    subst hnil
    simp at hp
    exact absurd hp hold
  | succ fuel ih =>
    intro s i hs hp
    rcases s with _ | ⟨a, rest⟩
    · simp at hp
      exact absurd hp hold
    by_cases hmatch : old ≠ [] ∧ old.isPrefixOf (a :: rest) = true
    · refine ⟨[], replaceAllFuel old new fuel (List.drop (old.length - 1) rest), ?_⟩
      simp only [replaceAllFuel]
      rw [if_pos hmatch]
      simp
    · have hnp : old.isPrefixOf (a :: rest) = false := by
        cases h : old.isPrefixOf (a :: rest)
        · rfl
        · exact absurd ⟨hold, h⟩ hmatch
      rcases i with _ | i
      · rw [List.drop_zero] at hp
        rw [hp] at hnp
        cases hnp
      · rw [List.drop_succ_cons] at hp
        have hrest : rest.length ≤ fuel := by
          simp only [List.length_cons] at hs
          omega
        obtain ⟨x, y, hxy⟩ := ih rest i hrest hp
        refine ⟨a :: x, y, ?_⟩
        simp only [replaceAllFuel]
        rw [if_neg hmatch, hxy]
        simp

theorem replaceAll_contains {old new s : List Char} {i : Nat} (hold : old ≠ [])
    (hp : old.isPrefixOf (s.drop i) = true) :
    ∃ x y, replaceAll old new s = x ++ new ++ y :=
  replaceAllFuel_contains hold s.length s i (Nat.le_refl _) hp

theorem take_ne_nil_of_ne_nil {l : List Char} {n : Nat} (hl : l ≠ []) (hn : n ≠ 0) :
    l.take n ≠ [] := by
  match l, n with
  | [], _ => exact absurd rfl hl
  | _ :: _, 0 => exact absurd rfl hn
  | a :: rest, n + 1 => simp

set_option maxRecDepth 100000 in
/-- Claim C1 (counterexample): with a tracked record whose anchor
`publicID="smpZZZ"` is absent from the original bytes, the save does NOT
fail: it reports success, writes a patched file to the main path (with the
other record's change applied), and clears the tracker. -/
theorem save_missing_anchor_counterexample :
    findFrom missFile (anchorOf (chars "smpZZZ")) 0 = none ∧
    (save_xml ⟨some missFile, none, missTracker, true⟩ false).2 = true ∧
    (save_xml ⟨some missFile, none, missTracker, true⟩ false).1.mainFile =
      some missExpected ∧
    missExpected ≠ missFile ∧
    (save_xml ⟨some missFile, none, missTracker, true⟩ false).1.tracker = [] := by
  decide

/-- Claim C1 (amended): when a tracked record's anchor text is missing
from the original bytes, that record's changes are silently skipped; the
save still succeeds, the remaining records' changes are applied and
written, and the tracker is cleared. -/
theorem save_skips_missing_anchor
    (st : EditorState) (content elementId : List Char)
    (fs : List (List Char × List Char))
    (rest : List (List Char × List (List Char × List Char)))
    (hmain : st.mainFile = some content)
    (htr : st.tracker = (elementId, fs) :: rest)
    (hmiss : findFrom content (anchorOf elementId) 0 = none) :
    (save_xml st false).2 = true ∧
    (save_xml st false).1.mainFile = some (apply_tracked_changes content rest) ∧
    (save_xml st false).1.tracker = [] := by
  have hskip : patchElement content elementId fs = content := by
    simp [patchElement, hmiss]
  simp [save_xml, hmain, htr, apply_tracked_changes, hskip]

set_option maxRecDepth 100000 in
/-- Claim C1 (witness for the amended theorem). -/
theorem save_skips_missing_anchor_witness :
    (⟨some missFile, none, missTracker, true⟩ : EditorState).mainFile = some missFile ∧
    (save_xml ⟨some missFile, none, missTracker, true⟩ false).1.mainFile =
      some (apply_tracked_changes missFile [(chars "smpBBB", [(chars "depth", chars "7")])]) :=
  ⟨rfl, (save_skips_missing_anchor ⟨some missFile, none, missTracker, true⟩
    missFile (chars "smpZZZ") [(chars "depth", chars "9")]
    [(chars "smpBBB", [(chars "depth", chars "7")])] rfl rfl (by decide)).2.1⟩

set_option maxRecDepth 100000 in
/-- Claim C2 (counterexample): saving a tracked empty value for `dip`,
whose block contains `<dip>-90</dip>`, leaves `<dip></dip>` in the output:
the tag is not removed. -/
theorem empty_value_keeps_tag_counterexample :
    apply_tracked_changes emptyValFile [(chars "smpCCC", [(chars "dip", chars "")])] =
      emptyValExpected ∧
    (findFrom emptyValExpected (chars "<dip>") 0).isSome = true ∧
    (findFrom emptyValExpected (chars "<dip></dip>") 0).isSome = true := by
  decide

/-- Claim C2 (amended): when the tracked new value is empty and the block
contains an opening tag with a closing tag after it, the whole
`<field>...</field>` span is replaced by the empty-content pair
`<field></field>`, which therefore still occurs in the patched block. -/
theorem empty_value_replaces_with_empty_tag
    (childIndent mc field : List Char) (p q : Nat)
    (hp : findFrom mc (chars "<" ++ field ++ chars ">") 0 = some p)
    (hq : findFrom mc (chars "</" ++ field ++ chars ">") p = some q) :
    ((chars "<" ++ field ++ chars ">") ++ (chars "</" ++ field ++ chars ">")) <:+:
      applyFieldChange childIndent mc field [] := by
  have hopen := (findFrom_some hp).2
  have hpq : p ≤ q := (findFrom_some hq).1
  have hdrop_ne : mc.drop p ≠ [] := by
    intro hnil
    rw [hnil] at hopen
    have hfalse : (chars "<" ++ field ++ chars ">").isPrefixOf ([] : List Char) = false := rfl
    rw [hfalse] at hopen
    cases hopen
  have hlen3 : (chars "</" ++ field ++ chars ">").length = field.length + 3 := by
    have h2 : chars "</" = ['<', '/'] := rfl
    have h3 : chars ">" = ['>'] := rfl
    rw [h2, h3]
    simp
  have hspan_pre : (sliceL p (q + (chars "</" ++ field ++ chars ">").length) mc).isPrefixOf
      (mc.drop p) = true := by
    rw [List.isPrefixOf_iff_prefix]
    exact List.take_prefix _ _
  have hspan_ne : sliceL p (q + (chars "</" ++ field ++ chars ">").length) mc ≠ [] := by
    apply take_ne_nil_of_ne_nil hdrop_ne
    rw [hlen3]
    omega
  obtain ⟨x, y, hxy⟩ := @replaceAll_contains
    (sliceL p (q + (chars "</" ++ field ++ chars ">").length) mc)
    ((chars "<" ++ field ++ chars ">") ++ [] ++ (chars "</" ++ field ++ chars ">"))
    mc p hspan_ne hspan_pre
  simp only [applyFieldChange, hp, hq]
  rw [hxy]
  exact ⟨x, y, by simp⟩

/-- Claim C2 (witness for the amended theorem). -/
theorem empty_value_replaces_with_empty_tag_witness :
    findFrom (chars "<dip>-90</dip>") (chars "<" ++ chars "dip" ++ chars ">") 0 = some 0 ∧
    ((chars "<" ++ chars "dip" ++ chars ">") ++ (chars "</" ++ chars "dip" ++ chars ">")) <:+:
      applyFieldChange [] (chars "<dip>-90</dip>") (chars "dip") [] :=
  ⟨by decide, empty_value_replaces_with_empty_tag [] (chars "<dip>-90</dip>")
    (chars "dip") 0 8 (by decide) (by decide)⟩

/-- Claim C3: the code places codes shorter than 3 characters FIRST, not
last: their sort key is `('', '', 999)` and the empty string compares
below every one-character band code, so `["BHZ","BH"]` sorts to
`["BH","BHZ"]` while the claim requires `BH` to come after `BHZ`. -/
theorem short_code_sorts_first :
    sort_channels exChansShort = [⟨chars "BH", 1⟩, ⟨chars "BHZ", 0⟩] ∧
    get_sort_key ⟨chars "BH", 1⟩ = ([], [], 999) ∧
    ltKey (get_sort_key ⟨chars "BH", 1⟩) (get_sort_key ⟨chars "BHZ", 0⟩) = true := by
  decide

/-- Claim C4: a save that fails after the backup rename (injected write
failure) restores the original bytes at the main path by renaming the
backup back and leaves the tracker and unsaved flag untouched; a
successful save is the only path that clears the tracker. -/
theorem save_failure_restores_backup_and_keeps_tracker
    (st : EditorState) (c : List Char) (h : st.mainFile = some c) :
    (save_xml st true).1.mainFile = some c ∧
    (save_xml st true).1.backupFile = none ∧
    (save_xml st true).2 = false ∧
    (save_xml st true).1.tracker = st.tracker ∧
    (save_xml st true).1.unsaved = st.unsaved ∧
    (save_xml st false).2 = true ∧
    (save_xml st false).1.tracker = [] ∧
    (save_xml st false).1.unsaved = false := by
  simp [save_xml, h]

/-- Claim C4 (witness). -/
theorem save_failure_restores_backup_and_keeps_tracker_witness :
    (⟨some missFile, none, missTracker, true⟩ : EditorState).mainFile = some missFile ∧
    (save_xml ⟨some missFile, none, missTracker, true⟩ true).1.mainFile = some missFile ∧
    (save_xml ⟨some missFile, none, missTracker, true⟩ true).1.tracker = missTracker :=
  ⟨rfl,
    (save_failure_restores_backup_and_keeps_tracker
      ⟨some missFile, none, missTracker, true⟩ missFile rfl).1,
    (save_failure_restores_backup_and_keeps_tracker
      ⟨some missFile, none, missTracker, true⟩ missFile rfl).2.2.2.1⟩

/-- Claim C5: a save with exactly one tracked field of one stream splices
the patched block between the untouched prefix (bytes before the located
block start) and the untouched suffix (bytes from the block end on):
outside the located element block the bytes are unchanged. -/
theorem single_change_patch_locality
    (content elementId field value : List Char) (es : Nat)
    (h1 : findFrom content (anchorOf elementId) 0 = some es) :
    apply_tracked_changes content [(elementId, [(field, value)])] =
      content.take (blockStartAt content es) ++
        applyFieldChange
          (indentOf (sliceL (blockStartAt content es) (blockEndAt content es) content))
          (sliceL (blockStartAt content es) (blockEndAt content es) content) field value ++
        content.drop (blockEndAt content es) ∧
    content.take (blockStartAt content es) <+:
      apply_tracked_changes content [(elementId, [(field, value)])] ∧
    content.drop (blockEndAt content es) <:+
      apply_tracked_changes content [(elementId, [(field, value)])] := by
  have hmain : apply_tracked_changes content [(elementId, [(field, value)])] =
      content.take (blockStartAt content es) ++
        applyFieldChange
          (indentOf (sliceL (blockStartAt content es) (blockEndAt content es) content))
          (sliceL (blockStartAt content es) (blockEndAt content es) content) field value ++
        content.drop (blockEndAt content es) := by
    simp [apply_tracked_changes, patchElement, h1]
  refine ⟨hmain, ?_, ?_⟩
  · rw [hmain, List.append_assoc]
    exact List.prefix_append _ _
  · rw [hmain, List.append_assoc]
    exact (List.suffix_append _ _).trans (List.suffix_append _ _)

set_option maxRecDepth 100000 in
/-- Claim C5 (witness). -/
theorem single_change_patch_locality_witness :
    findFrom emptyValFile (anchorOf (chars "smpCCC")) 0 = some 37 ∧
    emptyValFile.take (blockStartAt emptyValFile 37) <+:
      apply_tracked_changes emptyValFile [(chars "smpCCC", [(chars "dip", chars "")])] :=
  ⟨by decide,
    (single_change_patch_locality emptyValFile (chars "smpCCC") (chars "dip") (chars "")
      37 (by decide)).2.1⟩

set_option maxRecDepth 100000 in
/-- Claim C6: for every save whose anchor is located and whose extracted
stream block contains no tag for the tracked field, with a non-empty new
value, the patch splices into the block — immediately after the `>` that
ends the last recognizable closing element found by the reverse line
scan — the new line `"\n" ++ indent ++ "<field>value</field>"`, leaving
every other byte of the block and of the file untouched; the indentation
`indentOf` is the whitespace prefix of the block's second physical line
when that prefix is non-empty, and 12 spaces when the prefix is empty or
there is no second line.  In particular, for `demoFile`'s stream
(publicID `smp2024ABZ`, no `gainUnit` element), staging `gainUnit = M/S`
through `update_stream` and saving produces exactly `demoExpected`, which
is `demoFile` with the single line
`            <gainUnit>M/S</gainUnit>` inserted directly after the
block's `</shared>` line; every other line is byte-identical. -/
theorem insert_missing_field_spec :
    (∀ (content elementId field value : List Char) (es p g : Nat),
      findFrom content (anchorOf elementId) 0 = some es →
      findFrom (sliceL (blockStartAt content es) (blockEndAt content es) content)
        (chars "<" ++ field ++ chars ">") 0 = none →
      value ≠ [] →
      findLastElemEnd
        (sliceL (blockStartAt content es) (blockEndAt content es) content) = some p →
      findFrom (sliceL (blockStartAt content es) (blockEndAt content es) content)
        (chars ">") p = some g →
      patchElement content elementId [(field, value)] =
        content.take (blockStartAt content es) ++
          ((sliceL (blockStartAt content es) (blockEndAt content es) content).take (g + 1) ++
            (chars "\n" ++
              indentOf (sliceL (blockStartAt content es) (blockEndAt content es) content) ++
              (chars "<" ++ field ++ chars ">") ++ value ++
              (chars "</" ++ field ++ chars ">")) ++
            (sliceL (blockStartAt content es) (blockEndAt content es) content).drop (g + 1)) ++
          content.drop (blockEndAt content es)) ∧
    (∀ (mc first second : List Char) (rest : List (List Char)),
      splitOnChar '\n' mc = first :: second :: rest →
      second.takeWhile isPySpace ≠ [] →
      indentOf mc = second.takeWhile isPySpace) ∧
    (∀ (mc first second : List Char) (rest : List (List Char)),
      splitOnChar '\n' mc = first :: second :: rest →
      second.takeWhile isPySpace = [] →
      indentOf mc = chars "            ") ∧
    (∀ (mc first : List Char),
      splitOnChar '\n' mc = [first] →
      indentOf mc = chars "            ") ∧
    ((update_stream demoStreamElem demoGui [] false).tracker =
      [(chars "smp2024ABZ", [(chars "gainUnit", chars "M/S")])] ∧
    (save_xml ⟨some demoFile, none,
        (update_stream demoStreamElem demoGui [] false).tracker,
        (update_stream demoStreamElem demoGui [] false).unsaved⟩ false).2 = true ∧
    (save_xml ⟨some demoFile, none,
        (update_stream demoStreamElem demoGui [] false).tracker,
        (update_stream demoStreamElem demoGui [] false).unsaved⟩ false).1.mainFile =
      some demoExpected ∧
    splitOnChar '\n' demoExpected =
      (splitOnChar '\n' demoFile).take 9 ++
        [chars "            <gainUnit>M/S</gainUnit>"] ++
        (splitOnChar '\n' demoFile).drop 9 ∧
    (findFrom demoFile (chars "<gainUnit>") 0).isSome = false) := by
  refine ⟨?_, ?_, ?_, ?_, by decide⟩
  · intro content elementId field value es p g h1 h2 _hval h4 h5
    simp only [patchElement, h1, List.foldl_cons, List.foldl_nil,
      applyFieldChange, h2, h4, h5]
  · intro mc first second rest hsplit hne
    simp only [indentOf, hsplit]
    rw [if_neg hne]
  · intro mc first second rest hsplit he
    simp only [indentOf, hsplit]
    rw [if_pos he]
  · intro mc first hsplit
    simp only [indentOf, hsplit]

set_option maxRecDepth 100000 in
/-- Claim C6 (witness): the general insertion theorem, applied at
`demoFile` with its computed offsets, yields exactly `demoExpected`. -/
theorem insert_missing_field_spec_witness :
    patchElement demoFile (chars "smp2024ABZ") [(chars "gainUnit", chars "M/S")] =
      demoExpected := by
  have h := insert_missing_field_spec.1 demoFile (chars "smp2024ABZ") (chars "gainUnit")
    (chars "M/S") 245 95 103 (by decide) (by decide) (by decide) (by decide) (by decide)
  rw [h]
  decide

/-- Claim C8 (counterexample): reading a field whose child element is
present but empty returns Python `None`, not the empty string. -/
theorem get_element_text_none_counterexample :
    _get_element_text ⟨[], [⟨chars "depth", none⟩]⟩ (chars "depth") [] = none := by
  decide

/-- Claim C8 (amended): `_get_element_text` returns the default (the empty
string at every call site) only when the child element is absent; when the
child is present it returns that child's text verbatim, which is null for
an empty element.  It never raises. -/
theorem get_element_text_amended (el : StreamElem) (tag dflt : List Char) :
    (findChild el.children tag = none → _get_element_text el tag dflt = some dflt) ∧
    (∀ c, findChild el.children tag = some c → _get_element_text el tag dflt = c.text) := by
  constructor
  · intro h
    simp [_get_element_text, h]
  · intro c h
    simp [_get_element_text, h]

theorem ltStr_nil_nil : ltStr [] [] = false := rfl

theorem ltStr_nil_cons (y : Char) (ys : List Char) : ltStr [] (y :: ys) = true := rfl

theorem ltStr_cons_nil (x : Char) (xs : List Char) : ltStr (x :: xs) [] = false := rfl

theorem ltStr_cons (x y : Char) (xs ys : List Char) :
    ltStr (x :: xs) (y :: ys) =
      if x < y then true else if y < x then false else ltStr xs ys := rfl

theorem char_lt_iff (a b : Char) : a < b ↔ a.toNat < b.toNat := by
  rw [Char.lt_def]
  exact Iff.rfl

theorem ltStr_le1 : ∀ a b : List Char, a.length ≤ 1 → b.length ≤ 1 →
    ltStr a b = decide (encC a < encC b)
  | [], [], _, _ => by simp [ltStr_nil_nil, encC]
  | [], y :: ys, _, _ => by simp [ltStr_nil_cons, encC]
  | x :: xs, [], _, _ => by simp [ltStr_cons_nil, encC]
  | x :: xs, y :: ys, ha, hb => by
    have hxs : xs = [] := by
      rw [List.length_cons] at ha
      exact List.length_eq_zero.mp (by omega)
    have hys : ys = [] := by
      rw [List.length_cons] at hb
      exact List.length_eq_zero.mp (by omega)
    subst hxs
    subst hys
    rw [ltStr_cons]
    by_cases hxy : x < y
    · rw [if_pos hxy]
      have := (char_lt_iff x y).mp hxy
      symm
      rw [decide_eq_true_eq]
      simp only [encC]
      omega
    · rw [if_neg hxy]
      by_cases hyx : y < x
      · rw [if_pos hyx]
        have := (char_lt_iff y x).mp hyx
        symm
        rw [decide_eq_false_iff_not]
        simp only [encC]
        omega
      · rw [if_neg hyx, ltStr_nil_nil]
        have h1 : ¬ x.toNat < y.toNat := fun hh => hxy ((char_lt_iff x y).mpr hh)
        symm
        rw [decide_eq_false_iff_not]
        simp only [encC]
        omega

theorem get_sort_key_shape (c : Channel) :
    (get_sort_key c).1.length ≤ 1 ∧ (get_sort_key c).2.1.length ≤ 1 := by
  unfold get_sort_key
  split
  · simp
  · constructor
    · rw [List.length_take]
      exact Nat.min_le_left _ _
    · rw [List.length_take]
      exact Nat.min_le_left _ _

theorem lex3_decide (A1 B1 A2 B2 A3 B3 : Nat) :
    (if decide (A1 < B1) then true else if decide (B1 < A1) then false
     else if decide (A2 < B2) then true else if decide (B2 < A2) then false
     else decide (A3 < B3)) =
      decide (A1 < B1 ∨ (A1 = B1 ∧ (A2 < B2 ∨ (A2 = B2 ∧ A3 < B3)))) := by
  by_cases h1 : A1 < B1 <;> by_cases h2 : B1 < A1 <;>
    by_cases h3 : A2 < B2 <;> by_cases h4 : B2 < A2 <;>
      by_cases h5 : A3 < B3 <;>
        simp [h1, h2, h3, h4, h5] <;> omega

theorem ltKey_def (a b : List Char × List Char × Nat) :
    ltKey a b =
      (if ltStr a.1 b.1 then true
       else if ltStr b.1 a.1 then false
       else if ltStr a.2.1 b.2.1 then true
       else if ltStr b.2.1 a.2.1 then false
       else decide (a.2.2 < b.2.2)) := rfl

theorem ltKey_key_eq (a b : Channel) :
    ltKey (get_sort_key a) (get_sort_key b) =
      decide (ltNat3 (encKey (get_sort_key a)) (encKey (get_sort_key b))) := by
  obtain ⟨ha1, ha2⟩ := get_sort_key_shape a
  obtain ⟨hb1, hb2⟩ := get_sort_key_shape b
  rw [ltKey_def, ltStr_le1 _ _ ha1 hb1, ltStr_le1 _ _ hb1 ha1,
    ltStr_le1 _ _ ha2 hb2, ltStr_le1 _ _ hb2 ha2]
  unfold ltNat3 encKey
  exact lex3_decide _ _ _ _ _ _

theorem chanLE_iff (a b : Channel) :
    chanLE a b ↔ ¬ ltNat3 (encKey (get_sort_key b)) (encKey (get_sort_key a)) := by
  unfold chanLE
  rw [ltKey_key_eq]
  exact decide_eq_false_iff_not

theorem ltKey_self (c : Channel) :
    ltKey (get_sort_key c) (get_sort_key c) = false := by
  rw [ltKey_key_eq, decide_eq_false_iff_not]
  unfold ltNat3
  omega

instance : IsTotal Channel chanLE where
  total a b := by
    rw [chanLE_iff, chanLE_iff]
    unfold ltNat3
    omega

instance : IsTrans Channel chanLE where
  trans a b c hab hbc := by
    rw [chanLE_iff] at hab hbc ⊢
    unfold ltNat3 at hab hbc ⊢
    omega

theorem filter_orderedInsert (a : Channel) (p : Channel → Bool)
    (hkey : ∀ b, p a = true → p b = true → get_sort_key b = get_sort_key a) :
    ∀ l : List Channel,
      (List.orderedInsert chanLE a l).filter p =
        if p a = true then a :: l.filter p else l.filter p
  | [] => by simp [List.orderedInsert, List.filter_cons]
  | b :: bs => by
    simp only [List.orderedInsert]
    by_cases hab : chanLE a b
    · rw [if_pos hab, List.filter_cons, List.filter_cons]
    · rw [if_neg hab, List.filter_cons, filter_orderedInsert a p hkey bs, List.filter_cons]
      by_cases hpa : p a = true
      · by_cases hpb : p b = true
        · exfalso
          apply hab
          unfold chanLE
          rw [hkey b hpa hpb]
          exact ltKey_self a
        · simp [hpa, hpb]
      · by_cases hpb : p b = true
        · simp [hpa, hpb]
        · simp [hpa, hpb]

theorem filter_insertionSort (p : Channel → Bool)
    (hkey : ∀ x y, p x = true → p y = true → get_sort_key x = get_sort_key y) :
    ∀ l : List Channel,
      (List.insertionSort chanLE l).filter p = l.filter p
  | [] => rfl
  | a :: l => by
    simp only [List.insertionSort]
    rw [filter_orderedInsert a p (fun b hpa hpb => hkey b a hpb hpa),
      filter_insertionSort p hkey l, List.filter_cons]

theorem spec_orientation_eq (c : Char) :
    specOrientationPriority c = orientation_order c := by
  unfold specOrientationPriority orientation_order
  by_cases hE : c = 'E' <;> by_cases h1 : c = '1' <;> by_cases hN : c = 'N' <;>
    by_cases h2 : c = '2' <;> by_cases hZ : c = 'Z' <;> simp [hE, h1, hN, h2, hZ]

theorem ltStr_singleton (x y : Char) : ltStr [x] [y] = decide (x < y) := by
  rw [ltStr_cons]
  by_cases hxy : x < y
  · rw [if_pos hxy]
    simp [hxy]
  · rw [if_neg hxy]
    by_cases hyx : y < x
    · rw [if_pos hyx]
      simp [hxy]
    · rw [if_neg hyx, ltStr_nil_nil]
      simp [hxy]

theorem take_one_of_three {l : List Char} (h : 3 ≤ l.length) :
    l.take 1 = [l.getD 0 ' '] ∧ (l.drop 1).take 1 = [l.getD 1 ' '] := by
  rcases l with _ | ⟨c0, _ | ⟨c1, _ | ⟨c2, rest⟩⟩⟩
  · simp at h
  · simp at h
  · simp at h
  · simp [List.getD]

theorem chanLE_implies_spec (a b : Channel) (ha : 3 ≤ a.code.length)
    (hb : 3 ≤ b.code.length) (h : chanLE a b) : specStreamLe a b := by
  rw [chanLE_iff] at h
  have hka : get_sort_key a =
      ([a.code.getD 0 ' '], [a.code.getD 1 ' '], orientation_order (a.code.getD 2 ' ')) := by
    unfold get_sort_key
    rw [if_neg (by omega), (take_one_of_three ha).1, (take_one_of_three ha).2]
  have hkb : get_sort_key b =
      ([b.code.getD 0 ' '], [b.code.getD 1 ' '], orientation_order (b.code.getD 2 ' ')) := by
    unfold get_sort_key
    rw [if_neg (by omega), (take_one_of_three hb).1, (take_one_of_three hb).2]
  rw [hka, hkb] at h
  simp only [encKey, encC, ltNat3] at h
  unfold specStreamLe
  rw [spec_orientation_eq, spec_orientation_eq]
  by_cases h1 : a.code.getD 0 ' ' < b.code.getD 0 ' '
  · exact Or.inl h1
  by_cases h2 : b.code.getD 0 ' ' < a.code.getD 0 ' '
  · exact absurd (Or.inl (by have := (char_lt_iff _ _).mp h2; omega)) h
  have e0 : a.code.getD 0 ' ' = b.code.getD 0 ' ' :=
    le_antisymm (le_of_not_lt h2) (le_of_not_lt h1)
  refine Or.inr ⟨e0, ?_⟩
  by_cases h3 : a.code.getD 1 ' ' < b.code.getD 1 ' '
  · exact Or.inl h3
  by_cases h4 : b.code.getD 1 ' ' < a.code.getD 1 ' '
  · exact absurd (Or.inr ⟨by rw [e0],
      Or.inl (by have := (char_lt_iff _ _).mp h4; omega)⟩) h
  have e1 : a.code.getD 1 ' ' = b.code.getD 1 ' ' :=
    le_antisymm (le_of_not_lt h4) (le_of_not_lt h3)
  refine Or.inr ⟨e1, ?_⟩
  by_contra hoo
  push_neg at hoo
  exact h (Or.inr ⟨by rw [e0], Or.inr ⟨by rw [e1], hoo⟩⟩)

/-- Claim C7: on a list of streams whose codes all have at least three
characters, `sort_channels` returns a permutation of the input, ordered
ascending by the spec's `(bandCode, instrumentCode, orientationPriority)`
key (E/1 → 0, N/2 → 1, Z → 2, else 3), with ties (equal sort keys) kept in
original relative order; in particular `["BHZ","BHE","BHN"]` orders to
`["BHE","BHN","BHZ"]` and `["HH2","HH1","HHZ"]` orders to
`["HH1","HH2","HHZ"]`. -/
theorem sort_channels_spec :
    (∀ chans : List Channel, chans.all (fun c => decide (3 ≤ c.code.length)) = true →
      (sort_channels chans).Perm chans ∧
      List.Pairwise specStreamLe (sort_channels chans) ∧
      ∀ k, (sort_channels chans).filter (fun c => decide (get_sort_key c = k)) =
        chans.filter (fun c => decide (get_sort_key c = k))) ∧
    (sort_channels exChans1).map (fun c => c.code) =
      [chars "BHE", chars "BHN", chars "BHZ"] ∧
    (sort_channels exChans2).map (fun c => c.code) =
      [chars "HH1", chars "HH2", chars "HHZ"] := by
  refine ⟨?_, by decide, by decide⟩
  intro chans h3
  have hmem : ∀ c ∈ chans, 3 ≤ c.code.length := by
    intro c hc
    have := List.all_eq_true.mp h3 c hc
    simpa using this
  refine ⟨List.perm_insertionSort _ _, ?_, ?_⟩
  · have hs : List.Pairwise chanLE (List.insertionSort chanLE chans) :=
      List.sorted_insertionSort chanLE chans
    have hsub : ∀ c ∈ List.insertionSort chanLE chans, c ∈ chans := by
      intro c hc
      exact (List.perm_insertionSort chanLE chans).subset hc
    exact hs.imp_of_mem (fun {x y} hx hy hxy =>
      chanLE_implies_spec x y (hmem x (hsub x hx)) (hmem y (hsub y hy)) hxy)
  · intro k
    exact filter_insertionSort _ (fun x y hx hy => by
      simp only [decide_eq_true_eq] at hx hy
      rw [hx, hy]) chans

/-- Claim C7 (witness). -/
theorem sort_channels_spec_witness :
    exChans1.all (fun c => decide (3 ≤ c.code.length)) = true ∧
    (sort_channels exChans1).Perm exChans1 :=
  ⟨by decide, (sort_channels_spec.1 exChans1 (by decide)).1⟩

/-- Claim C8 (witness for the amended theorem). -/
theorem get_element_text_amended_witness :
    findChild (StreamElem.mk [] []).children (chars "depth") = none ∧
    _get_element_text ⟨[], []⟩ (chars "depth") [] = some [] :=
  ⟨by decide, (get_element_text_amended ⟨[], []⟩ (chars "depth") []).1 (by decide)⟩

theorem dictGet_dictSet_self {β : Type} :
    ∀ (m : List (List Char × β)) (k : List Char) (v : β),
      dictGet (dictSet m k v) k = some v
  | [], k, v => by simp [dictSet, dictGet]
  | (k', v') :: rest, k, v => by
    by_cases h : k' = k
    · simp [dictSet, h, dictGet]
    · simp only [dictSet]
      rw [if_neg h]
      simp only [dictGet]
      rw [if_neg h]
      exact dictGet_dictSet_self rest k v

theorem dictGet_dictSet_ne {β : Type} :
    ∀ (m : List (List Char × β)) (k' k : List Char) (v : β), k' ≠ k →
      dictGet (dictSet m k' v) k = dictGet m k
  | [], k', k, v => by
    intro h
    simp only [dictSet, dictGet]
    rw [if_neg h]
  | (a, b) :: rest, k', k, v => by
    intro h
    by_cases ha : a = k'
    · simp only [dictSet]
      rw [if_pos ha]
      simp only [dictGet]
      rw [if_neg h, if_neg (by rw [ha]; exact h)]
    · simp only [dictSet]
      rw [if_neg ha]
      simp only [dictGet]
      by_cases hak : a = k
      · rw [if_pos hak, if_pos hak]
      · rw [if_neg hak, if_neg hak]
        exact dictGet_dictSet_ne rest k' k v h

theorem findChild_append_ne :
    ∀ (cs : List XmlChild) (s t : List Char) (v : Option (List Char)), s ≠ t →
      findChild (cs ++ [⟨s, v⟩]) t = findChild cs t
  | [], s, t, v => by
    intro h
    simp only [List.nil_append, findChild]
    rw [if_neg h]
  | c :: rest, s, t, v => by
    intro h
    simp only [List.cons_append, findChild]
    by_cases hc : c.tag = t
    · rw [if_pos hc, if_pos hc]
    · rw [if_neg hc, if_neg hc]
      exact findChild_append_ne rest s t v h

theorem findChild_append_self :
    ∀ (cs : List XmlChild) (t : List Char) (v : Option (List Char)),
      findChild cs t = none → findChild (cs ++ [⟨t, v⟩]) t = some ⟨t, v⟩
  | [], t, v => by
    intro _
    simp [findChild]
  | c :: rest, t, v => by
    intro h
    simp only [findChild] at h
    simp only [List.cons_append, findChild]
    by_cases hc : c.tag = t
    · rw [if_pos hc] at h
      cases h
    · rw [if_neg hc] at h
      rw [if_neg hc]
      exact findChild_append_self rest t v h

theorem findChild_set_ne :
    ∀ (cs : List XmlChild) (s t v : List Char), s ≠ t →
      findChild (setChildText cs s v) t = findChild cs t
  | [], _, _, _ => fun _ => rfl
  | c :: rest, s, t, v => by
    intro h
    simp only [setChildText]
    by_cases hc : c.tag = s
    · rw [if_pos hc]
      simp only [findChild]
      have hct : c.tag ≠ t := by rw [hc]; exact h
      rw [if_neg hct, if_neg hct]
    · rw [if_neg hc]
      simp only [findChild]
      by_cases hct : c.tag = t
      · rw [if_pos hct, if_pos hct]
      · rw [if_neg hct, if_neg hct]
        exact findChild_set_ne rest s t v h

theorem findChild_set_self :
    ∀ (cs : List XmlChild) (t v : List Char) (c : XmlChild),
      findChild cs t = some c →
      findChild (setChildText cs t v) t = some { c with text := some v }
  | [], t, v, c => by
    intro h
    cases h
  | d :: rest, t, v, c => by
    intro h
    simp only [findChild] at h
    simp only [setChildText]
    by_cases hd : d.tag = t
    · rw [if_pos hd] at h
      injection h with h
      subst h
      rw [if_pos hd]
      simp only [findChild]
      rw [if_pos hd]
    · rw [if_neg hd] at h
      rw [if_neg hd]
      simp only [findChild]
      rw [if_neg hd]
      exact findChild_set_self rest t v c h

theorem findChild_remove_ne :
    ∀ (cs : List XmlChild) (s t : List Char), s ≠ t →
      findChild (removeChild cs s) t = findChild cs t
  | [], _, _ => fun _ => rfl
  | c :: rest, s, t => by
    intro h
    simp only [removeChild]
    by_cases hc : c.tag = s
    · rw [if_pos hc]
      simp only [findChild]
      have hct : c.tag ≠ t := by rw [hc]; exact h
      rw [if_neg hct]
    · rw [if_neg hc]
      simp only [findChild]
      by_cases hct : c.tag = t
      · rw [if_pos hct, if_pos hct]
      · rw [if_neg hct, if_neg hct]
        exact findChild_remove_ne rest s t h

theorem update_fields_cons (el0 : StreamElem) (g w : List Char)
    (rest : List (List Char × List Char)) (el : StreamElem)
    (ch : List (List Char × List Char)) (made : Bool) :
    update_fields el0 ((g, w) :: rest) el ch made =
      if pyNe w (_get_element_text el0 g []) = true then
        match findChild el.children g with
        | none =>
          if w ≠ [] then
            update_fields el0 rest { el with children := el.children ++ [⟨g, some w⟩] }
              (dictSet ch g w) true
          else update_fields el0 rest el ch made
        | some _ =>
          if w ≠ [] then
            update_fields el0 rest { el with children := setChildText el.children g w }
              (dictSet ch g w) true
          else update_fields el0 rest { el with children := removeChild el.children g }
              (dictSet ch g []) true
      else update_fields el0 rest el ch made := rfl

theorem update_fields_step_skip (el0 : StreamElem) (g w : List Char) (rest el ch made)
    (hne : pyNe w (_get_element_text el0 g []) = false) :
    update_fields el0 ((g, w) :: rest) el ch made = update_fields el0 rest el ch made := by
  rw [update_fields_cons, if_neg (by rw [hne]; exact Bool.false_ne_true)]

theorem update_fields_step_skip_empty (el0 : StreamElem) (g w : List Char) (rest el ch made)
    (hne : pyNe w (_get_element_text el0 g []) = true)
    (hfc : findChild el.children g = none) (hw : ¬ w ≠ []) :
    update_fields el0 ((g, w) :: rest) el ch made = update_fields el0 rest el ch made := by
  rw [update_fields_cons, if_pos hne]
  simp only [hfc]
  rw [if_neg hw]

theorem update_fields_step_append (el0 : StreamElem) (g w : List Char) (rest el ch made)
    (hne : pyNe w (_get_element_text el0 g []) = true)
    (hfc : findChild el.children g = none) (hw : w ≠ []) :
    update_fields el0 ((g, w) :: rest) el ch made =
      update_fields el0 rest { el with children := el.children ++ [⟨g, some w⟩] }
        (dictSet ch g w) true := by
  rw [update_fields_cons, if_pos hne]
  simp only [hfc]
  rw [if_pos hw]

theorem update_fields_step_set (el0 : StreamElem) (g w : List Char) (rest el ch made)
    (c : XmlChild) (hne : pyNe w (_get_element_text el0 g []) = true)
    (hfc : findChild el.children g = some c) (hw : w ≠ []) :
    update_fields el0 ((g, w) :: rest) el ch made =
      update_fields el0 rest { el with children := setChildText el.children g w }
        (dictSet ch g w) true := by
  rw [update_fields_cons, if_pos hne]
  simp only [hfc]
  rw [if_pos hw]

theorem update_fields_step_remove (el0 : StreamElem) (g w : List Char) (rest el ch made)
    (c : XmlChild) (hne : pyNe w (_get_element_text el0 g []) = true)
    (hfc : findChild el.children g = some c) (hw : ¬ w ≠ []) :
    update_fields el0 ((g, w) :: rest) el ch made =
      update_fields el0 rest { el with children := removeChild el.children g }
        (dictSet ch g []) true := by
  rw [update_fields_cons, if_pos hne]
  simp only [hfc]
  rw [if_neg hw]

theorem update_fields_changes_skip (el0 : StreamElem) :
    ∀ (gui : List (List Char × List Char)) (el : StreamElem)
      (ch : List (List Char × List Char)) (made : Bool) (f : List Char),
      f ∉ gui.map Prod.fst →
      dictGet (update_fields el0 gui el ch made).2.1 f = dictGet ch f
  | [], _, _, _, _ => fun _ => rfl
  | (g, w) :: rest, el, ch, made, f => by
    intro hf
    simp only [List.map_cons, List.mem_cons, not_or] at hf
    obtain ⟨hfg, hfr⟩ := hf
    have hgf : g ≠ f := fun e => hfg e.symm
    by_cases hne : pyNe w (_get_element_text el0 g []) = true
    · cases hfc : findChild el.children g with
      | none =>
        by_cases hw : w ≠ []
        · rw [update_fields_step_append el0 g w rest el ch made hne hfc hw,
            update_fields_changes_skip el0 rest _ _ _ f hfr,
            dictGet_dictSet_ne ch g f w hgf]
        · rw [update_fields_step_skip_empty el0 g w rest el ch made hne hfc hw]
          exact update_fields_changes_skip el0 rest _ _ _ f hfr
      | some c =>
        by_cases hw : w ≠ []
        · rw [update_fields_step_set el0 g w rest el ch made c hne hfc hw,
            update_fields_changes_skip el0 rest _ _ _ f hfr,
            dictGet_dictSet_ne ch g f w hgf]
        · rw [update_fields_step_remove el0 g w rest el ch made c hne hfc hw,
            update_fields_changes_skip el0 rest _ _ _ f hfr,
            dictGet_dictSet_ne ch g f [] hgf]
    · replace hne : pyNe w (_get_element_text el0 g []) = false := by
        cases hh : pyNe w (_get_element_text el0 g [])
        · rfl
        · exact absurd hh hne
      rw [update_fields_step_skip el0 g w rest el ch made hne]
      exact update_fields_changes_skip el0 rest _ _ _ f hfr

theorem update_fields_keeps_child (el0 : StreamElem) :
    ∀ (gui : List (List Char × List Char)) (el : StreamElem)
      (ch : List (List Char × List Char)) (made : Bool) (t : List Char),
      t ∉ gui.map Prod.fst →
      findChild (update_fields el0 gui el ch made).1.children t = findChild el.children t
  | [], _, _, _, _ => fun _ => rfl
  | (g, w) :: rest, el, ch, made, t => by
    intro ht
    simp only [List.map_cons, List.mem_cons, not_or] at ht
    obtain ⟨htg, htr⟩ := ht
    have hgt : g ≠ t := fun e => htg e.symm
    by_cases hne : pyNe w (_get_element_text el0 g []) = true
    · cases hfc : findChild el.children g with
      | none =>
        by_cases hw : w ≠ []
        · rw [update_fields_step_append el0 g w rest el ch made hne hfc hw,
            update_fields_keeps_child el0 rest _ _ _ t htr]
          exact findChild_append_ne el.children g t (some w) hgt
        · rw [update_fields_step_skip_empty el0 g w rest el ch made hne hfc hw]
          exact update_fields_keeps_child el0 rest _ _ _ t htr
      | some c =>
        by_cases hw : w ≠ []
        · rw [update_fields_step_set el0 g w rest el ch made c hne hfc hw,
            update_fields_keeps_child el0 rest _ _ _ t htr]
          exact findChild_set_ne el.children g t w hgt
        · rw [update_fields_step_remove el0 g w rest el ch made c hne hfc hw,
            update_fields_keeps_child el0 rest _ _ _ t htr]
          exact findChild_remove_ne el.children g t hgt
    · replace hne : pyNe w (_get_element_text el0 g []) = false := by
        cases hh : pyNe w (_get_element_text el0 g [])
        · rfl
        · exact absurd hh hne
      rw [update_fields_step_skip el0 g w rest el ch made hne]
      exact update_fields_keeps_child el0 rest _ _ _ t htr

theorem update_fields_made_mono (el0 : StreamElem) :
    ∀ (gui : List (List Char × List Char)) (el : StreamElem)
      (ch : List (List Char × List Char)),
      (update_fields el0 gui el ch true).2.2 = true
  | [], _, _ => rfl
  | (g, w) :: rest, el, ch => by
    by_cases hne : pyNe w (_get_element_text el0 g []) = true
    · cases hfc : findChild el.children g with
      | none =>
        by_cases hw : w ≠ []
        · rw [update_fields_step_append el0 g w rest el ch true hne hfc hw]
          exact update_fields_made_mono el0 rest _ _
        · rw [update_fields_step_skip_empty el0 g w rest el ch true hne hfc hw]
          exact update_fields_made_mono el0 rest _ _
      | some c =>
        by_cases hw : w ≠ []
        · rw [update_fields_step_set el0 g w rest el ch true c hne hfc hw]
          exact update_fields_made_mono el0 rest _ _
        · rw [update_fields_step_remove el0 g w rest el ch true c hne hfc hw]
          exact update_fields_made_mono el0 rest _ _
    · replace hne : pyNe w (_get_element_text el0 g []) = false := by
        cases hh : pyNe w (_get_element_text el0 g [])
        · rfl
        · exact absurd hh hne
      rw [update_fields_step_skip el0 g w rest el ch true hne]
      exact update_fields_made_mono el0 rest _ _

theorem update_fields_made (el0 : StreamElem) :
    ∀ (gui : List (List Char × List Char)) (el : StreamElem)
      (ch : List (List Char × List Char)) (made : Bool) (f nv : List Char),
      (f, nv) ∈ gui → nv ≠ [] →
      pyNe nv (_get_element_text el0 f []) = true →
      (update_fields el0 gui el ch made).2.2 = true
  | [], _, _, _, _, _ => by
    intro hmem
    cases hmem
  | (g, w) :: rest, el, ch, made, f, nv => by
    intro hmem hnv hch
    rcases List.mem_cons.mp hmem with heq | hmem'
    · injection heq with h1 h2
      subst h1
      subst h2
      cases hfc : findChild el.children f with
      | none =>
        rw [update_fields_step_append el0 f nv rest el ch made hch hfc hnv]
        exact update_fields_made_mono el0 rest _ _
      | some c =>
        rw [update_fields_step_set el0 f nv rest el ch made c hch hfc hnv]
        exact update_fields_made_mono el0 rest _ _
    · by_cases hne : pyNe w (_get_element_text el0 g []) = true
      · cases hfc : findChild el.children g with
        | none =>
          by_cases hw : w ≠ []
          · rw [update_fields_step_append el0 g w rest el ch made hne hfc hw]
            exact update_fields_made el0 rest _ _ _ f nv hmem' hnv hch
          · rw [update_fields_step_skip_empty el0 g w rest el ch made hne hfc hw]
            exact update_fields_made el0 rest _ _ _ f nv hmem' hnv hch
        | some c =>
          by_cases hw : w ≠ []
          · rw [update_fields_step_set el0 g w rest el ch made c hne hfc hw]
            exact update_fields_made el0 rest _ _ _ f nv hmem' hnv hch
          · rw [update_fields_step_remove el0 g w rest el ch made c hne hfc hw]
            exact update_fields_made el0 rest _ _ _ f nv hmem' hnv hch
      · replace hne : pyNe w (_get_element_text el0 g []) = false := by
          cases hh : pyNe w (_get_element_text el0 g [])
          · rfl
          · exact absurd hh hne
        rw [update_fields_step_skip el0 g w rest el ch made hne]
        exact update_fields_made el0 rest _ _ _ f nv hmem' hnv hch

theorem update_fields_unchanged_not_recorded (el0 : StreamElem) :
    ∀ (gui : List (List Char × List Char)) (el : StreamElem)
      (ch : List (List Char × List Char)) (made : Bool) (f nv : List Char),
      (gui.map Prod.fst).Nodup → (f, nv) ∈ gui →
      pyNe nv (_get_element_text el0 f []) = false →
      dictGet ch f = none →
      dictGet (update_fields el0 gui el ch made).2.1 f = none
  | [], _, _, _, _, _ => by
    intro _ hmem
    cases hmem
  | (g, w) :: rest, el, ch, made, f, nv => by
    intro hnodup hmem hunch hch
    have hnodup' : (rest.map Prod.fst).Nodup := by
      simp only [List.map_cons] at hnodup
      exact (List.nodup_cons.mp hnodup).2
    rcases List.mem_cons.mp hmem with heq | hmem'
    · injection heq with h1 h2
      subst h1
      subst h2
      have hfr : f ∉ rest.map Prod.fst := by
        simp only [List.map_cons] at hnodup
        exact (List.nodup_cons.mp hnodup).1
      rw [update_fields_step_skip el0 f nv rest el ch made hunch,
        update_fields_changes_skip el0 rest el ch made f hfr]
      exact hch
    · have hgf : g ≠ f := by
        intro hgf
        simp only [List.map_cons] at hnodup
        apply (List.nodup_cons.mp hnodup).1
        rw [hgf]
        exact List.mem_map.mpr ⟨(f, nv), hmem', rfl⟩
      by_cases hne : pyNe w (_get_element_text el0 g []) = true
      · cases hfc : findChild el.children g with
        | none =>
          by_cases hw : w ≠ []
          · rw [update_fields_step_append el0 g w rest el ch made hne hfc hw]
            exact update_fields_unchanged_not_recorded el0 rest _ _ _ f nv hnodup' hmem'
              hunch (by rw [dictGet_dictSet_ne ch g f w hgf]; exact hch)
          · rw [update_fields_step_skip_empty el0 g w rest el ch made hne hfc hw]
            exact update_fields_unchanged_not_recorded el0 rest _ _ _ f nv hnodup' hmem'
              hunch hch
        | some c =>
          by_cases hw : w ≠ []
          · rw [update_fields_step_set el0 g w rest el ch made c hne hfc hw]
            exact update_fields_unchanged_not_recorded el0 rest _ _ _ f nv hnodup' hmem'
              hunch (by rw [dictGet_dictSet_ne ch g f w hgf]; exact hch)
          · rw [update_fields_step_remove el0 g w rest el ch made c hne hfc hw]
            exact update_fields_unchanged_not_recorded el0 rest _ _ _ f nv hnodup' hmem'
              hunch (by rw [dictGet_dictSet_ne ch g f [] hgf]; exact hch)
      · replace hne : pyNe w (_get_element_text el0 g []) = false := by
          cases hh : pyNe w (_get_element_text el0 g [])
          · rfl
          · exact absurd hh hne
        rw [update_fields_step_skip el0 g w rest el ch made hne]
        exact update_fields_unchanged_not_recorded el0 rest _ _ _ f nv hnodup' hmem' hunch hch

theorem update_fields_sets_child (el0 : StreamElem) :
    ∀ (gui : List (List Char × List Char)) (el : StreamElem)
      (ch : List (List Char × List Char)) (made : Bool) (f nv : List Char),
      (gui.map Prod.fst).Nodup → (f, nv) ∈ gui → nv ≠ [] →
      pyNe nv (_get_element_text el0 f []) = true →
      ∃ c, findChild (update_fields el0 gui el ch made).1.children f = some c ∧
        c.text = some nv
  | [], _, _, _, _, _ => by
    intro _ hmem
    cases hmem
  | (g, w) :: rest, el, ch, made, f, nv => by
    intro hnodup hmem hnv hch
    have hnodup' : (rest.map Prod.fst).Nodup := by
      simp only [List.map_cons] at hnodup
      exact (List.nodup_cons.mp hnodup).2
    rcases List.mem_cons.mp hmem with heq | hmem'
    · injection heq with h1 h2
      subst h1
      subst h2
      have hfr : f ∉ rest.map Prod.fst := by
        simp only [List.map_cons] at hnodup
        exact (List.nodup_cons.mp hnodup).1
      cases hfc : findChild el.children f with
      | none =>
        rw [update_fields_step_append el0 f nv rest el ch made hch hfc hnv]
        refine ⟨⟨f, some nv⟩, ?_, rfl⟩
        rw [update_fields_keeps_child el0 rest _ _ _ f hfr]
        exact findChild_append_self el.children f (some nv) hfc
      | some c =>
        rw [update_fields_step_set el0 f nv rest el ch made c hch hfc hnv]
        refine ⟨{ c with text := some nv }, ?_, rfl⟩
        rw [update_fields_keeps_child el0 rest _ _ _ f hfr]
        exact findChild_set_self el.children f nv c hfc
    · by_cases hne : pyNe w (_get_element_text el0 g []) = true
      · cases hfc : findChild el.children g with
        | none =>
          by_cases hw : w ≠ []
          · rw [update_fields_step_append el0 g w rest el ch made hne hfc hw]
            exact update_fields_sets_child el0 rest _ _ _ f nv hnodup' hmem' hnv hch
          · rw [update_fields_step_skip_empty el0 g w rest el ch made hne hfc hw]
            exact update_fields_sets_child el0 rest _ _ _ f nv hnodup' hmem' hnv hch
        | some c =>
          by_cases hw : w ≠ []
          · rw [update_fields_step_set el0 g w rest el ch made c hne hfc hw]
            exact update_fields_sets_child el0 rest _ _ _ f nv hnodup' hmem' hnv hch
          · rw [update_fields_step_remove el0 g w rest el ch made c hne hfc hw]
            exact update_fields_sets_child el0 rest _ _ _ f nv hnodup' hmem' hnv hch
      · replace hne : pyNe w (_get_element_text el0 g []) = false := by
          cases hh : pyNe w (_get_element_text el0 g [])
          · rfl
          · exact absurd hh hne
        rw [update_fields_step_skip el0 g w rest el ch made hne]
        exact update_fields_sets_child el0 rest _ _ _ f nv hnodup' hmem' hnv hch

/-- Claim C9: when `update_stream` detects at least one change on a stream
with a non-empty `publicID`, the tracker entry for that id afterwards is
exactly this call's `changes` dict: it exists, and a field whose GUI value
equals its current in-memory value (here `f`) is absent from it — even
though the incoming tracker (universally quantified, so possibly carrying
`f` from an earlier update) may have recorded it before. -/
theorem update_stream_replaces_tracker_entry
    (el : StreamElem) (gui : List (List Char × List Char))
    (tracker : List (List Char × List (List Char × List Char)))
    (unsaved : Bool) (f nv : List Char)
    (hnodup : (gui.map Prod.fst).Nodup)
    (hmem : (f, nv) ∈ gui)
    (hunch : pyNe nv (_get_element_text el f []) = false)
    (heid : getAttr el (chars "publicID") [] ≠ [])
    (hmade : (update_stream el gui tracker unsaved).made = true) :
    (dictGet (update_stream el gui tracker unsaved).tracker
      (getAttr el (chars "publicID") [])).isSome = true ∧
    (dictGet (update_stream el gui tracker unsaved).tracker
      (getAttr el (chars "publicID") [])).bind (fun cs => dictGet cs f) = none := by
  rcases huf : update_fields el gui el [] false with ⟨el', changes, made⟩
  have hch : dictGet changes f = none := by
    have h := update_fields_unchanged_not_recorded el gui el [] false f nv hnodup hmem
      hunch rfl
    rw [huf] at h
    exact h
  have hm : made = true := by
    by_cases h : made = true
    · exact h
    · exfalso
      have hfalse : (update_stream el gui tracker unsaved).made = false := by
        simp [update_stream, huf, h]
      rw [hfalse] at hmade
      cases hmade
  subst hm
  have htr : (update_stream el gui tracker unsaved).tracker =
      dictSet tracker (getAttr el (chars "publicID") []) changes := by
    simp [update_stream, huf, heid]
  rw [htr, dictGet_dictSet_self]
  exact ⟨rfl, hch⟩

/-- Claim C9 (witness). -/
theorem update_stream_replaces_tracker_entry_witness :
    (dictGet (update_stream elW guiW trW false).tracker
      (getAttr elW (chars "publicID") [])).isSome = true ∧
    (dictGet (update_stream elW guiW trW false).tracker
      (getAttr elW (chars "publicID") [])).bind
        (fun cs => dictGet cs (chars "depth")) = none :=
  update_stream_replaces_tracker_entry elW guiW trW false (chars "depth") (chars "5")
    (by decide) (by decide) (by decide) (by decide) (by decide)

/-- Claim C10: a stream-update on an element whose `publicID` is absent or
empty, with at least one changed field (`f` staged to non-empty `nv`),
mutates the in-memory element (reading `f` afterwards yields `nv`), sets
`unsaved_changes`, but leaves the change tracker untouched — so a
subsequent save patches exactly what it would have patched without this
edit, leaving that record's bytes unchanged. -/
theorem update_stream_empty_publicID_no_tracking
    (el : StreamElem) (gui : List (List Char × List Char))
    (tracker : List (List Char × List (List Char × List Char)))
    (unsaved : Bool) (f nv : List Char)
    (hid : getAttr el (chars "publicID") [] = [])
    (hnodup : (gui.map Prod.fst).Nodup)
    (hmem : (f, nv) ∈ gui)
    (hnv : nv ≠ [])
    (hch : pyNe nv (_get_element_text el f []) = true) :
    (update_stream el gui tracker unsaved).tracker = tracker ∧
    (update_stream el gui tracker unsaved).made = true ∧
    (update_stream el gui tracker unsaved).unsaved = true ∧
    (∀ c, apply_tracked_changes c (update_stream el gui tracker unsaved).tracker =
      apply_tracked_changes c tracker) ∧
    _get_element_text (update_stream el gui tracker unsaved).elem f [] = some nv := by
  rcases huf : update_fields el gui el [] false with ⟨el', changes, made⟩
  have hm : made = true := by
    have h := update_fields_made el gui el [] false f nv hmem hnv hch
    rw [huf] at h
    exact h
  subst hm
  have hel : ∃ c, findChild el'.children f = some c ∧ c.text = some nv := by
    have h := update_fields_sets_child el gui el [] false f nv hnodup hmem hnv hch
    rw [huf] at h
    exact h
  have htr : (update_stream el gui tracker unsaved).tracker = tracker := by
    simp [update_stream, huf, hid]
  have helem : (update_stream el gui tracker unsaved).elem = el' := by
    simp [update_stream, huf]
  have hmade2 : (update_stream el gui tracker unsaved).made = true := by
    simp [update_stream, huf]
  have huns : (update_stream el gui tracker unsaved).unsaved = true := by
    simp [update_stream, huf]
  refine ⟨htr, hmade2, huns, fun c => by rw [htr], ?_⟩
  rw [helem]
  obtain ⟨c, hc1, hc2⟩ := hel
  simp only [_get_element_text, hc1]
  exact hc2

/-- Claim C10 (witness). -/
theorem update_stream_empty_publicID_no_tracking_witness :
    (update_stream elNoId guiNoId [] false).tracker = [] ∧
    _get_element_text (update_stream elNoId guiNoId [] false).elem (chars "depth") [] =
      some (chars "7") :=
  ⟨(update_stream_empty_publicID_no_tracking elNoId guiNoId [] false (chars "depth")
      (chars "7") (by decide) (by decide) (by decide) (by decide) (by decide)).1,
   (update_stream_empty_publicID_no_tracking elNoId guiNoId [] false (chars "depth")
      (chars "7") (by decide) (by decide) (by decide) (by decide) (by decide)).2.2.2.2⟩
